import Mathlib

/-!
Shallow embedding of the loopy repository's core components, translated from
the Python sources:

* `src/src/loopy/InstrumentRegistry.py` — the channel-resource allocator
  (`register_instrument`, `unregister_instrument`, `get_instrument`).
* `src/StepChannel.py` — the pattern buffer (`set_step`, `reset_step`,
  `get_steps`).
* `src/src/loopy/StepSequencer.py` — the step player (`advance_one_step`,
  `set_tempo`, `add_channel`, `remove_channel`, `start`, `stop`,
  `_play_channel_step`, `_stop_active_notes`).

Modelling notes, recorded once here:

* Registry entries are immutable after creation in the source (the dicts
  stored in `_registry` are never mutated), so Python's reference sharing
  between a primary name and its aliases is modelled by value sharing.
* Fields of `InstrumentRegistry` that no claim mentions and that never feed
  back into the registry table, the pool or the primary-name table
  (`_soundfont_cache`, `_soundfont_presets`, `_preset_aliases`,
  `_instrument_display_names`) and the calls into the external sound engine
  (`load_soundfont`, `select_instrument`, `channel_info`) are not modelled;
  none of them is read by the branches that decide channel assignment.
* Python dictionaries are modelled as association lists: assignment appends a
  fresh key at the end (the code only ever assigns keys it has just checked
  to be absent), `setdefault` keeps an existing binding, `pop` removes the
  binding.  `deque` with `popleft`/`append` is a list with head = front.
* A raising call (`RuntimeError` on pool exhaustion) is modelled with
  `Except`; in a trace of operations the failing call leaves the state it
  received, which matches the source because the raise happens before any
  mutation of the modelled fields.
* The truthiness test `if primary_name:` in `register_instrument` is
  modelled faithfully: an empty-string primary name is treated as absent.
-/

/-- Preset key `(soundfont_path, bank, preset)` as used by
`_preset_to_primary_name`. -/
abbrev PKey := String × Nat × Nat

/-- One registration entry of `InstrumentRegistry._registry` (the `sfid`
field is omitted: it is produced by the external engine and never read by
the modelled operations). -/
structure REntry where
  channel : Nat
  sf : String
  bank : Nat
  preset : Nat
deriving DecidableEq, Repr

/-- Association-list lookup, the model of Python `dict.get`. -/
def alookup {α β : Type} [DecidableEq α] : List (α × β) → α → Option β
  | [], _ => none
  | (k, v) :: t, x => if x = k then some v else alookup t x

/-- Association-list assignment `d[k] = v`: overwrite an existing binding,
otherwise append the new binding at the end (Python dict insertion order). -/
def dinsert {α β : Type} [DecidableEq α] (l : List (α × β)) (k : α) (v : β) :
    List (α × β) :=
  if (alookup l k).isSome then
    l.map (fun p => if p.1 = k then (k, v) else p)
  else
    l ++ [(k, v)]

/-- Association-list `d.setdefault(k, v)`: keep an existing binding. -/
def setdefaultKV {α β : Type} [DecidableEq α] (l : List (α × β)) (k : α) (v : β) :
    List (α × β) :=
  if (alookup l k).isSome then l else l ++ [(k, v)]

/-- Association-list `d.pop(k, None)`. -/
def dremove {α β : Type} [DecidableEq α] (l : List (α × β)) (k : α) :
    List (α × β) :=
  l.filter (fun p => p.1 ≠ k)

/-- The mutable state of `InstrumentRegistry` relevant to channel
assignment: `_registry`, `_available_channels` and
`_preset_to_primary_name`. -/
structure RState where
  registry : List (String × REntry)
  pool : List Nat
  primary : List (PKey × String)
deriving DecidableEq, Repr

/-- Fresh registry, `InstrumentRegistry.__init__`:
`_available_channels = deque(range(max_channels))`. -/
def initR (maxChannels : Nat) : RState :=
  { registry := [], pool := List.range maxChannels, primary := [] }

/-- The entry of the live primary registrant for a preset key, mirroring
`primary_name = self._preset_to_primary_name.get(preset_key)` followed by
`if primary_name:` (truthiness: the empty string counts as no primary) and
`entry = self._registry.get(primary_name)`. -/
def primaryLiveEntry (s : RState) (k : PKey) : Option REntry :=
  match alookup s.primary k with
  | none => none
  | some pn => if pn = "" then none else alookup s.registry pn

/-- `InstrumentRegistry.register_instrument` restricted to the modelled
state.  Returns the assigned channel and the new state, or an error for the
`RuntimeError` raised on pool exhaustion. -/
def register (name sf : String) (bank preset : Nat) (s : RState) :
    Except Unit (Nat × RState) :=
  match alookup s.registry name with
  | some e => .ok (e.channel, s)
  | none =>
    let k : PKey := (sf, bank, preset)
    match primaryLiveEntry s k with
    | some e => .ok (e.channel, { s with registry := dinsert s.registry name e })
    | none =>
      match s.pool with
      | [] => .error ()
      | c :: rest =>
        let e : REntry := { channel := c, sf := sf, bank := bank, preset := preset }
        .ok (c, { registry := dinsert s.registry name e,
                  pool := rest,
                  primary := setdefaultKV s.primary k name })

/-- `InstrumentRegistry.unregister_instrument`. -/
def unregister (name : String) (s : RState) : RState :=
  match alookup s.registry name with
  | none => s
  | some e => { s with registry := dremove s.registry name,
                       pool := s.pool ++ [e.channel] }

/-- `InstrumentRegistry.get_instrument`, projected to the channel
(the engine component of the returned pair is external). -/
def getInstrument (s : RState) (name : String) : Option Nat :=
  (alookup s.registry name).map (fun e => e.channel)

/-- One call in a registry trace. -/
inductive ROp where
  | reg (name sf : String) (bank preset : Nat)
  | unreg (name : String)
deriving DecidableEq, Repr

/-- Apply one call; a raising `register_instrument` leaves the state as it
found it (the raise precedes every mutation of the modelled fields). -/
def applyROp (s : RState) : ROp → RState
  | .reg name sf bank preset =>
    match register name sf bank preset s with
    | .ok (_, s1) => s1
    | .error _ => s
  | .unreg name => unregister name s

/-- Run a trace of registry calls. -/
def runROps (s : RState) (ops : List ROp) : RState :=
  ops.foldl applyROp s

/-- Channels held by the entries currently in the registry table (one
occurrence per table entry; aliases repeat their primary's channel). -/
def assignedChannels (s : RState) : List Nat :=
  s.registry.map (fun p => p.2.channel)

/-- Whether a `register_instrument` call would be served from an existing
primary's entry, i.e. take the alias branch. -/
def takesAlias (s : RState) (name sf : String) (bank preset : Nat) : Bool :=
  (alookup s.registry name).isNone
    && (primaryLiveEntry s (sf, bank, preset)).isSome

/-- A trace is alias-free when no `register_instrument` call in it is served
from an existing primary's entry. -/
def aliasFree (s : RState) : List ROp → Bool
  | [] => true
  | op :: t =>
    (match op with
     | .reg name sf bank preset => !takesAlias s name sf bank preset
     | .unreg _ => true)
    && aliasFree (applyROp s op) t

/-- The channel-conservation property claimed for the registry at a given
capacity and trace: the pool and the assigned channels are disjoint, their
union is exactly `0..maxChannels-1`, and no channel is duplicated. -/
def PoolPartition (maxChannels : Nat) (ops : List ROp) : Prop :=
  let s := runROps (initR maxChannels) ops
  (∀ c, ¬(c ∈ s.pool ∧ c ∈ assignedChannels s))
    ∧ (∀ c, (c ∈ s.pool ∨ c ∈ assignedChannels s) ↔ c < maxChannels)
    ∧ (s.pool ++ assignedChannels s).Nodup

example : register "a" "f" 0 0 (initR 1) =
    .ok (0, { registry := [("a", ⟨0, "f", 0, 0⟩)], pool := [],
              primary := [(("f", 0, 0), "a")] }) := by rfl

example :
    runROps (initR 1) [.reg "a" "f" 0 0, .reg "b" "f" 0 0, .unreg "b"] =
    { registry := [("a", ⟨0, "f", 0, 0⟩)], pool := [0],
      primary := [(("f", 0, 0), "a")] } := by decide

/-- Channel of a `register_instrument` result, `none` on the raising case. -/
def regChannel (r : Except Unit (Nat × RState)) : Option Nat :=
  match r with
  | .ok (c, _) => some c
  | .error _ => none

/-- Pool left behind by a `register_instrument` result. -/
def regPool (r : Except Unit (Nat × RState)) : Option (List Nat) :=
  match r with
  | .ok (_, s) => some s.pool
  | .error _ => none

section AssocLemmas

variable {α β : Type} [DecidableEq α]

theorem alookup_append_none {l1 : List (α × β)} (l2 : List (α × β)) {x : α}
    (h : alookup l1 x = none) : alookup (l1 ++ l2) x = alookup l2 x := by
  induction l1 with
  | nil => simp
  | cons p t ih =>
    obtain ⟨k, v⟩ := p
    by_cases hx : x = k
    · simp [alookup, hx] at h
    · simpa [alookup, hx] using ih (by simpa [alookup, hx] using h)

theorem alookup_append_some {l1 : List (α × β)} (l2 : List (α × β)) {x : α}
    {v : β} (h : alookup l1 x = some v) : alookup (l1 ++ l2) x = some v := by
  induction l1 with
  | nil => simp [alookup] at h
  | cons p t ih =>
    obtain ⟨k, w⟩ := p
    by_cases hx : x = k
    · simp [alookup, hx] at h ⊢
      exact h
    · simpa [alookup, hx] using ih (by simpa [alookup, hx] using h)

theorem dinsert_fresh {l : List (α × β)} {k : α} (v : β)
    (h : alookup l k = none) : dinsert l k v = l ++ [(k, v)] := by
  simp [dinsert, h]

theorem not_mem_keys_of_alookup_none {l : List (α × β)} {k : α}
    (h : alookup l k = none) : k ∉ l.map Prod.fst := by
  induction l with
  | nil => simp
  | cons p t ih =>
    obtain ⟨k', v⟩ := p
    by_cases hx : k = k'
    · simp [alookup, hx] at h
    · simpa [hx] using ih (by simpa [alookup, hx] using h)

end AssocLemmas

/-- Removing an absent key is a no-op. -/
theorem dremove_of_not_mem {α β : Type} [DecidableEq α] {l : List (α × β)}
    {k : α} (h : k ∉ l.map Prod.fst) : dremove l k = l := by
  induction l with
  | nil => rfl
  | cons p t ih =>
    have h1 : p.1 ≠ k := by
      intro hc
      exact h (by simp [← hc])
    have h2 : k ∉ t.map Prod.fst := fun hm => h (by simp [hm])
    simp only [dremove, List.filter_cons] at ih ⊢
    simp [h1]
    intro a b hab hak
    exact h2 (hak ▸ List.mem_map_of_mem Prod.fst hab)

theorem dremove_cons_self {α β : Type} [DecidableEq α] {k : α} {v : β}
    {t : List (α × β)} : dremove ((k, v) :: t) k = dremove t k := by
  simp [dremove, List.filter_cons]

theorem dremove_cons_ne {α β : Type} [DecidableEq α] {k k' : α} {v : β}
    {t : List (α × β)} (hx : k' ≠ k) :
    dremove ((k', v) :: t) k = (k', v) :: dremove t k := by
  simp [dremove, List.filter_cons, hx]

/-- Removing a looked-up key from a duplicate-free table removes exactly one
entry bearing its channel. -/
theorem dremove_channels_perm {l : List (String × REntry)} {k : String}
    {e : REntry} (hnd : (l.map Prod.fst).Nodup) (he : alookup l k = some e) :
    (l.map (fun p => p.2.channel)).Perm
      (e.channel :: (dremove l k).map (fun p => p.2.channel)) := by
  induction l with
  | nil => simp [alookup] at he
  | cons p t ih =>
    obtain ⟨k', v⟩ := p
    have hnd2 : k' ∉ t.map Prod.fst ∧ (t.map Prod.fst).Nodup := by
      simpa [List.nodup_cons] using hnd
    by_cases hx : k = k'
    · have hv : v = e := by simpa [alookup, hx] using he
      subst hv
      subst hx
      rw [dremove_cons_self, dremove_of_not_mem hnd2.1]
      simp
    · have he2 : alookup t k = some e := by simpa [alookup, hx] using he
      rw [dremove_cons_ne (Ne.symm hx)]
      have step := (ih hnd2.2 he2).cons v.channel
      refine step.trans ?_
      simpa using List.Perm.swap e.channel v.channel
        ((dremove t k).map (fun p => p.2.channel))

/-- Inductive channel-conservation invariant of the registry: the table keys
are duplicate-free and the pool together with the assigned channels is a
permutation of `0..mc-1`. -/
def RInv (mc : Nat) (s : RState) : Prop :=
  (s.registry.map Prod.fst).Nodup
    ∧ (s.pool ++ assignedChannels s).Perm (List.range mc)

theorem rinv_init (mc : Nat) : RInv mc (initR mc) := by
  constructor
  · simp [initR]
  · simp [initR, assignedChannels]

theorem rinv_register {mc : Nat} {s : RState} {name sf : String}
    {bank preset : Nat} (h : RInv mc s)
    (hna : takesAlias s name sf bank preset = false) :
    RInv mc (applyROp s (.reg name sf bank preset)) := by
  cases hreg : alookup s.registry name with
  | some e =>
    simp only [applyROp, register, hreg]
    exact h
  | none =>
    have hprim : primaryLiveEntry s (sf, bank, preset) = none := by
      by_cases hp : primaryLiveEntry s (sf, bank, preset) = none
      · exact hp
      · exfalso
        simp [takesAlias, hreg, Option.isSome_iff_ne_none] at hna
        exact hp hna
    cases hpool : s.pool with
    | nil =>
      simp only [applyROp, register, hreg, hprim, hpool]
      exact ⟨h.1, by simpa [hpool] using h.2⟩
    | cons c rest =>
      simp only [applyROp, register, hreg, hprim, hpool,
        dinsert_fresh _ hreg]
      constructor
      · have hfresh := not_mem_keys_of_alookup_none hreg
        rw [List.map_append]
        refine List.Nodup.append h.1 (by simp) ?_
        intro a ha hb
        simp at hb
        exact hfresh (hb ▸ ha)
      · have h2 := h.2
        rw [hpool] at h2
        have key : (rest ++ (List.map (fun p => p.2.channel) s.registry
            ++ [c])).Perm (List.range mc) := by
          rw [show rest ++ (List.map (fun p => p.2.channel) s.registry ++ [c])
              = (rest ++ List.map (fun p => p.2.channel) s.registry) ++ [c] by
            simp]
          exact (List.perm_append_singleton c _).trans
            (by simpa [assignedChannels] using h2)
        simpa [assignedChannels] using key

theorem rinv_unregister {mc : Nat} {s : RState} (name : String)
    (h : RInv mc s) : RInv mc (unregister name s) := by
  cases hreg : alookup s.registry name with
  | none =>
    simp only [unregister, hreg]
    exact h
  | some e =>
    simp only [unregister, hreg]
    constructor
    · exact h.1.sublist (List.Sublist.map Prod.fst (List.filter_sublist _))
    · have hperm := dremove_channels_perm h.1 hreg
      have heq : (s.pool ++ [e.channel] ++ (dremove s.registry name).map
          (fun p => p.2.channel))
          = s.pool ++ (e.channel :: (dremove s.registry name).map
            (fun p => p.2.channel)) := by
        simp
      simp only [assignedChannels]
      rw [heq]
      exact ((List.Perm.append_left s.pool hperm).symm).trans
        (by simpa [assignedChannels] using h.2)

theorem rinv_run {mc : Nat} {s : RState} {ops : List ROp} (h : RInv mc s)
    (ha : aliasFree s ops = true) : RInv mc (runROps s ops) := by
  induction ops generalizing s with
  | nil => simpa [runROps] using h
  | cons op t ih =>
    have hsplit := (Bool.and_eq_true _ _).mp (by simpa [aliasFree] using ha)
    have hstep : RInv mc (applyROp s op) := by
      cases op with
      | reg name sf bank preset =>
        exact rinv_register h (by simpa using hsplit.1)
      | unreg name => exact rinv_unregister name h
    simpa [runROps] using ih hstep hsplit.2

/-- C1, counterexample: with `max_channels = 1`, register two names with the
same preset triple (the second becomes an alias sharing channel 0), then
unregister the alias.  `unregister_instrument` returns the shared channel to
the pool although the primary entry still holds it, so channel 0 is in the
pool and assigned at once — the claimed partition invariant fails. -/
theorem claimC1_counterexample :
    ¬ PoolPartition 1 [.reg "a" "f" 0 0, .reg "b" "f" 0 0, .unreg "b"] := by
  intro h
  unfold PoolPartition at h
  obtain ⟨h1, -, -⟩ := h
  exact h1 0 (by decide)

/-- C1 (amended): over every trace of `register_instrument` and
`unregister_instrument` calls in which no call is served from an existing
primary's entry (no alias is created), the free pool and the channels held
by registry entries are disjoint, their union is exactly
`0..max_channels-1`, and no channel index is lost or duplicated. -/
theorem claimC1_pool_partition (mc : Nat) (ops : List ROp)
    (h : aliasFree (initR mc) ops = true) : PoolPartition mc ops := by
  obtain ⟨hnd, hperm⟩ := rinv_run (rinv_init mc) h
  have hnodup : ((runROps (initR mc) ops).pool
      ++ assignedChannels (runROps (initR mc) ops)).Nodup :=
    hperm.nodup_iff.mpr (List.nodup_range mc)
  unfold PoolPartition
  refine ⟨?_, ?_, hnodup⟩
  · intro c hc
    exact (List.nodup_append.mp hnodup).2.2 hc.1 hc.2
  · intro c
    constructor
    · intro hor
      have hmem := hperm.mem_iff.mp (List.mem_append.mpr hor)
      exact List.mem_range.mp hmem
    · intro hlt
      exact List.mem_append.mp (hperm.mem_iff.mpr (List.mem_range.mpr hlt))

/-- Witness for the amended C1 at a concrete alias-free trace. -/
theorem claimC1_witness :
    aliasFree (initR 2) [.reg "a" "f" 0 0, .reg "b" "g" 0 0, .unreg "a"] = true
    ∧ PoolPartition 2 [.reg "a" "f" 0 0, .reg "b" "g" 0 0, .unreg "a"] :=
  ⟨by decide, claimC1_pool_partition 2 _ (by decide)⟩

/-- C2, counterexample: the alias branch is guarded by the Python truthiness
test `if primary_name:`, so an empty-string primary name is not recognised.
After registering the primary name `""` (channel 0), registering the
distinct name `"x"` with the same `(soundfont_path, bank, preset)` triple
pops a second channel (1) instead of aliasing, and the pool shrinks. -/
theorem claimC2_counterexample :
    getInstrument (runROps (initR 2) [.reg "" "f" 0 0]) "" = some 0
    ∧ alookup (runROps (initR 2) [.reg "" "f" 0 0]).primary ("f", 0, 0) = some ""
    ∧ (runROps (initR 2) [.reg "" "f" 0 0]).pool = [1]
    ∧ regChannel (register "x" "f" 0 0 (runROps (initR 2) [.reg "" "f" 0 0]))
        = some 1
    ∧ regPool (register "x" "f" 0 0 (runROps (initR 2) [.reg "" "f" 0 0]))
        = some [] := by
  decide

/-- C2 (amended): if the registry has at least one free channel, then
registering a fresh name `A` with a preset triple that has no primary, and
then a second fresh, distinct, non-empty name `B` with the same triple,
returns the same channel `c` for both, the second call leaves the pool
unchanged, and the two calls together consume exactly one pool slot.
(The proviso forced by the counterexample is that the primary name `A` is
non-empty.) -/
theorem claimC2_alias_dedup (s : RState) (A B sf : String) (bank preset : Nat)
    (c : Nat) (rest : List Nat)
    (hA : A ≠ "") (hBA : B ≠ A)
    (hAreg : alookup s.registry A = none)
    (hBreg : alookup s.registry B = none)
    (hprim : alookup s.primary (sf, bank, preset) = none)
    (hpool : s.pool = c :: rest) :
    ∃ s1 s2,
      register A sf bank preset s = .ok (c, s1)
        ∧ s1.pool = rest
        ∧ register B sf bank preset s1 = .ok (c, s2)
        ∧ s2.pool = rest := by
  have hplive : primaryLiveEntry s (sf, bank, preset) = none := by
    simp [primaryLiveEntry, hprim]
  refine ⟨{ registry := s.registry ++ [(A, ⟨c, sf, bank, preset⟩)],
            pool := rest,
            primary := s.primary ++ [((sf, bank, preset), A)] },
          { registry := (s.registry ++ [(A, ⟨c, sf, bank, preset⟩)])
              ++ [(B, ⟨c, sf, bank, preset⟩)],
            pool := rest,
            primary := s.primary ++ [((sf, bank, preset), A)] },
          ?_, rfl, ?_, rfl⟩
  · simp [register, hAreg, hplive, hpool, dinsert_fresh _ hAreg,
      setdefaultKV, hprim]
  · have hB1 : alookup (s.registry ++ [(A, (⟨c, sf, bank, preset⟩ : REntry))]) B
        = none := by
      rw [alookup_append_none _ hBreg]
      simp [alookup, hBA]
    have hA1 : alookup (s.registry ++ [(A, (⟨c, sf, bank, preset⟩ : REntry))]) A
        = some ⟨c, sf, bank, preset⟩ := by
      rw [alookup_append_none _ hAreg]
      simp [alookup]
    have hp1 : alookup (s.primary ++ [((sf, bank, preset), A)]) (sf, bank, preset)
        = some A := by
      rw [alookup_append_none _ hprim]
      simp [alookup]
    simp [register, hB1, primaryLiveEntry, hp1, hA, hA1, dinsert_fresh _ hB1]

/-- Witness for the amended C2 at a concrete registry. -/
theorem claimC2_witness :
    ∃ s1 s2, register "a" "f" 0 0 (initR 1) = .ok (0, s1) ∧ s1.pool = []
      ∧ register "b" "f" 0 0 s1 = .ok (0, s2) ∧ s2.pool = [] :=
  claimC2_alias_dedup (initR 1) "a" "b" "f" 0 0 0 []
    (by decide) (by decide) rfl rfl rfl (by decide)

/-- C3: with an empty pool, registering a fresh name whose preset triple has
no live primary raises the resource-exhaustion error and leaves the modelled
registry state unchanged; concretely, with `max_channels = 1`, after
registering "piano" a registration of "guitar" with a different preset
fails while "piano" stays registered on channel 0. -/
theorem claimC3_exhaustion :
    (∀ (s : RState) (name sf : String) (bank preset : Nat),
        alookup s.registry name = none →
        primaryLiveEntry s (sf, bank, preset) = none →
        s.pool = [] →
        register name sf bank preset s = .error ()
          ∧ applyROp s (.reg name sf bank preset) = s)
    ∧ (∃ s1, register "piano" "sf" 0 0 (initR 1) = .ok (0, s1)
        ∧ register "guitar" "sf" 0 1 s1 = .error ()
        ∧ runROps (initR 1) [.reg "piano" "sf" 0 0, .reg "guitar" "sf" 0 1] = s1
        ∧ getInstrument s1 "piano" = some 0) := by
  constructor
  · intro s name sf bank preset h1 h2 h3
    constructor
    · simp [register, h1, h2, h3]
    · simp [applyROp, register, h1, h2, h3]
  · exact ⟨{ registry := [("piano", ⟨0, "sf", 0, 0⟩)], pool := [],
             primary := [(("sf", 0, 0), "piano")] }, rfl, rfl, rfl, rfl⟩

/-- Witness for C3's universally quantified part at a concrete state. -/
theorem claimC3_witness :
    register "guitar" "sf" 0 1 (runROps (initR 1) [.reg "piano" "sf" 0 0])
        = .error ()
      ∧ applyROp (runROps (initR 1) [.reg "piano" "sf" 0 0])
          (.reg "guitar" "sf" 0 1)
        = runROps (initR 1) [.reg "piano" "sf" 0 0] :=
  claimC3_exhaustion.1 _ "guitar" "sf" 0 1 (by decide) (by decide) (by decide)

/-- C9: after registering "A", unregistering it, and re-registering the same
preset triple under "B", the primary-name table still maps the triple to the
removed name "A", so both "B" and "C" pop fresh channels (1 and 2 here,
with `max_channels = 3`) and each call consumes a pool slot. -/
theorem claimC9_stale_primary :
    regChannel (register "B" "f" 0 0
        (runROps (initR 3) [.reg "A" "f" 0 0, .unreg "A"])) = some 1
    ∧ regChannel (register "C" "f" 0 0
        (runROps (initR 3) [.reg "A" "f" 0 0, .unreg "A", .reg "B" "f" 0 0]))
        = some 2
    ∧ alookup (runROps (initR 3) [.reg "A" "f" 0 0, .unreg "A"]).primary
        ("f", 0, 0) = some "A"
    ∧ alookup (runROps (initR 3) [.reg "A" "f" 0 0, .unreg "A"]).registry "A"
        = none
    ∧ (runROps (initR 3) [.reg "A" "f" 0 0, .unreg "A"]).pool.length = 3
    ∧ (runROps (initR 3)
        [.reg "A" "f" 0 0, .unreg "A", .reg "B" "f" 0 0]).pool.length = 2
    ∧ (runROps (initR 3)
        [.reg "A" "f" 0 0, .unreg "A", .reg "B" "f" 0 0,
         .reg "C" "f" 0 0]).pool.length = 1 := by
  decide

/-- One slot of a `StepChannel` pattern: `none` models Python `None`, and
`some (note, velocity)` models the stored two-element list
`[note, velocity]`, whose components may themselves be `None`. -/
abbrev PatternStep := Option (Option Nat × Option Nat)

/-- The state of a `StepChannel` (`src/StepChannel.py`). -/
structure StepChannel where
  instrumentName : String
  volume : Nat
  isPlaying : Bool
  steps : List PatternStep
deriving DecidableEq, Repr

/-- `StepChannel.__init__` (default volume 80). -/
def mkStepChannel (instrumentName : String) (volume : Nat) : StepChannel :=
  { instrumentName := instrumentName, volume := volume,
    isPlaying := false, steps := [] }

/-- The shared padding step of `set_step`/`reset_step`: if the index is
beyond the current list, extend it with `None` placeholders up to the
index. -/
def padSteps (l : List PatternStep) (i : Nat) : List PatternStep :=
  if l.length ≤ i then l ++ List.replicate (i + 1 - l.length) none else l

/-- `StepChannel.set_step`. -/
def setStep (ch : StepChannel) (i : Nat) (note vel : Option Nat) : StepChannel :=
  { ch with steps := (padSteps ch.steps i).set i (some (note, vel)) }

/-- `StepChannel.reset_step`. -/
def resetStep (ch : StepChannel) (i : Nat) : StepChannel :=
  { ch with steps := (padSteps ch.steps i).set i none }

/-- `StepChannel.get_steps`. -/
def getSteps (ch : StepChannel) : List PatternStep :=
  ch.steps

/-- `StepChannel.get_instrument_name`. -/
def getInstrumentName (ch : StepChannel) : String :=
  ch.instrumentName

/-- `StepChannel.get_volume`. -/
def getVolume (ch : StepChannel) : Nat :=
  ch.volume

/-- One call in a `StepChannel` trace. -/
inductive COp where
  | set (i : Nat) (note vel : Option Nat)
  | reset (i : Nat)
deriving DecidableEq, Repr

/-- Step index targeted by a call. -/
def copIdx : COp → Nat
  | .set i _ _ => i
  | .reset i => i

def applyCOp (ch : StepChannel) : COp → StepChannel
  | .set i note vel => setStep ch i note vel
  | .reset i => resetStep ch i

def runCOps (ch : StepChannel) (ops : List COp) : StepChannel :=
  ops.foldl applyCOp ch

/-- Highest step index targeted by a trace. -/
def maxIdx (ops : List COp) : Nat :=
  ops.foldl (fun m op => max m (copIdx op)) 0

/-- The value the trace leaves at index `i` starting from a default:
the payload of the last `set_step` targeting `i`, `none` after a last
`reset_step`, the default if `i` is untouched. -/
def lastWriteFrom (d : PatternStep) (ops : List COp) (i : Nat) : PatternStep :=
  ops.foldl (fun acc op =>
    match op with
    | .set j n v => if j = i then some (n, v) else acc
    | .reset j => if j = i then none else acc) d

/-- The value the trace leaves at index `i` of a fresh channel. -/
def lastWrite (ops : List COp) (i : Nat) : PatternStep :=
  lastWriteFrom none ops i

theorem padSteps_length (l : List PatternStep) (i : Nat) :
    (padSteps l i).length = max l.length (i + 1) := by
  unfold padSteps
  split <;> simp <;> omega

theorem applyCOp_length (ch : StepChannel) (op : COp) :
    (applyCOp ch op).steps.length = max ch.steps.length (copIdx op + 1) := by
  cases op <;> simp [applyCOp, setStep, resetStep, copIdx, padSteps_length]

theorem getD_replicate_none (m k : Nat) :
    (List.replicate m (none : PatternStep)).getD k none = none := by
  induction m generalizing k with
  | zero => simp
  | succ n ih =>
    cases k with
    | zero => simp [List.replicate]
    | succ k2 => simp [List.replicate, ih k2]

theorem padSteps_getD (l : List PatternStep) (i k : Nat) :
    (padSteps l i).getD k none = l.getD k none := by
  unfold padSteps
  split
  · rcases Nat.lt_or_ge k l.length with hk | hk
    · rw [List.getD_append _ _ _ _ hk]
    · rw [List.getD_eq_getElem?_getD, List.getElem?_append_right hk,
        ← List.getD_eq_getElem?_getD, getD_replicate_none,
        List.getD_eq_getElem?_getD, List.getElem?_eq_none hk]
      rfl
  · rfl

theorem applyCOp_getD (ch : StepChannel) (op : COp) (k : Nat) :
    (applyCOp ch op).steps.getD k none =
      match op with
      | .set j n v => if j = k then some (n, v) else ch.steps.getD k none
      | .reset j => if j = k then none else ch.steps.getD k none := by
  cases op with
  | set j n v =>
    by_cases hjk : j = k
    · subst hjk
      have hlen : j < (padSteps ch.steps j).length := by
        rw [padSteps_length]; omega
      simp [applyCOp, setStep, List.getD_eq_getElem?_getD,
        List.getElem?_set_eq_of_lt _ hlen]
    · simp only [applyCOp, setStep, List.getD_eq_getElem?_getD,
        List.getElem?_set_ne hjk, if_neg hjk]
      rw [← List.getD_eq_getElem?_getD, ← List.getD_eq_getElem?_getD,
        padSteps_getD]
  | reset j =>
    by_cases hjk : j = k
    · subst hjk
      have hlen : j < (padSteps ch.steps j).length := by
        rw [padSteps_length]; omega
      simp [applyCOp, resetStep, List.getD_eq_getElem?_getD,
        List.getElem?_set_eq_of_lt _ hlen]
    · simp only [applyCOp, resetStep, List.getD_eq_getElem?_getD,
        List.getElem?_set_ne hjk, if_neg hjk]
      rw [← List.getD_eq_getElem?_getD, ← List.getD_eq_getElem?_getD,
        padSteps_getD]

theorem runCOps_getD (ops : List COp) : ∀ (ch : StepChannel) (k : Nat),
    (runCOps ch ops).steps.getD k none
      = lastWriteFrom (ch.steps.getD k none) ops k := by
  induction ops with
  | nil => intro ch k; rfl
  | cons op t ih =>
    intro ch k
    have hstep : runCOps ch (op :: t) = runCOps (applyCOp ch op) t := rfl
    rw [hstep, ih, applyCOp_getD]
    cases op <;> rfl

theorem runCOps_length (ops : List COp) : ∀ ch : StepChannel,
    (runCOps ch ops).steps.length
      = ops.foldl (fun m op => max m (copIdx op + 1)) ch.steps.length := by
  induction ops with
  | nil => intro ch; rfl
  | cons op t ih =>
    intro ch
    have hstep : runCOps ch (op :: t) = runCOps (applyCOp ch op) t := rfl
    rw [hstep, ih, applyCOp_length]
    rfl

theorem foldlMax_shift (ops : List COp) : ∀ a : Nat,
    ops.foldl (fun m op => max m (copIdx op + 1)) (a + 1)
      = ops.foldl (fun m op => max m (copIdx op)) a + 1 := by
  induction ops with
  | nil => intro a; rfl
  | cons op t ih =>
    intro a
    have hmax : max (a + 1) (copIdx op + 1) = max a (copIdx op) + 1 := by omega
    simp only [List.foldl_cons, hmax, ih]

theorem length_maxIdx (ops : List COp) (h : ops ≠ []) (ch : StepChannel)
    (hch : ch.steps = []) :
    (runCOps ch ops).steps.length = maxIdx ops + 1 := by
  cases ops with
  | nil => exact absurd rfl h
  | cons op t =>
    rw [runCOps_length]
    simp only [hch, List.length_nil, List.foldl_cons]
    rw [show max 0 (copIdx op + 1) = copIdx op + 1 by omega, foldlMax_shift]
    unfold maxIdx
    simp only [List.foldl_cons]
    rw [show max 0 (copIdx op) = copIdx op by omega]

theorem length_le_runCOps (ops : List COp) :
    ∀ ch : StepChannel, ch.steps.length ≤ (runCOps ch ops).steps.length := by
  induction ops with
  | nil => intro ch; exact le_refl _
  | cons op t ih =>
    intro ch
    have h1 : ch.steps.length ≤ (applyCOp ch op).steps.length := by
      rw [applyCOp_length]; omega
    exact h1.trans (ih _)

/-- C5: for every non-empty trace of `set_step`/`reset_step` calls on a
fresh `StepChannel`, `get_steps` has length one plus the highest index ever
targeted, each index holds the payload of the last `set_step` that wrote it
(`None` if untouched or last reset), and the length never shrinks across
any prefix of the trace. -/
theorem claimC5_pattern_growth (nm : String) (vol : Nat) (ops : List COp)
    (h : ops ≠ []) :
    (getSteps (runCOps (mkStepChannel nm vol) ops)).length = maxIdx ops + 1
    ∧ (∀ i, (getSteps (runCOps (mkStepChannel nm vol) ops)).getD i none
        = lastWrite ops i)
    ∧ (∀ l1 l2, ops = l1 ++ l2 →
        (getSteps (runCOps (mkStepChannel nm vol) l1)).length
          ≤ (getSteps (runCOps (mkStepChannel nm vol) ops)).length) := by
  refine ⟨length_maxIdx ops h _ rfl, ?_, ?_⟩
  · intro i
    have hg := runCOps_getD ops (mkStepChannel nm vol) i
    simpa [getSteps, lastWrite, mkStepChannel] using hg
  · intro l1 l2 heq
    subst heq
    have hsplit : runCOps (mkStepChannel nm vol) (l1 ++ l2)
        = runCOps (runCOps (mkStepChannel nm vol) l1) l2 := by
      simp [runCOps, List.foldl_append]
    simp only [getSteps, hsplit]
    exact length_le_runCOps l2 _

/-- Witness for C5 at the regression-test trace. -/
theorem claimC5_witness :
    ([COp.set 3 (some 48) (some 80), COp.reset 1] ≠ [])
    ∧ (getSteps (runCOps (mkStepChannel "bass" 80)
          [COp.set 3 (some 48) (some 80), COp.reset 1])).length
        = maxIdx [COp.set 3 (some 48) (some 80), COp.reset 1] + 1 :=
  ⟨by decide, (claimC5_pattern_growth "bass" 80 _ (by decide)).1⟩

/-- One event sent to the sound engine by the sequencer:
`synch_noteon(midi_channel, note, velocity)` or
`synch_noteoff(midi_channel, note)`. -/
inductive SEv where
  | on (midiChannel note velocity : Nat)
  | off (midiChannel note : Nat)
deriving DecidableEq, Repr

/-- Pointwise update of the active-notes table (a Python dict keyed by the
attached channel object, modelled as a total function from channel ids
defaulting to the empty set: an absent key and an empty set are
indistinguishable to the modelled code). -/
def fupdate (f : Nat → List (Nat × Nat)) (k : Nat) (v : List (Nat × Nat)) :
    Nat → List (Nat × Nat) :=
  fun x => if x = k then v else f x

/-- Python `set.add` on a set of `(midi_channel, note)` pairs modelled as a
duplicate-free list. -/
def addActive (l : List (Nat × Nat)) (p : Nat × Nat) : List (Nat × Nat) :=
  if p ∈ l then l else l ++ [p]

/-- The state of a `StepSequencer` together with its collaborators as the
sequencer sees them: `lookupInstr` is `instrument_registry.get_instrument`
projected to the channel, `chan` maps an attached channel id to the
`StepChannel` object's state, and `log` is the sound engine's recorded
note-event sequence. -/
structure SeqState where
  lookupInstr : String → Option Nat
  chan : Nat → StepChannel
  steps : Nat
  bpm : ℚ
  stepDuration : ℚ
  channels : List Nat
  active : Nat → List (Nat × Nat)
  currentStep : Nat
  isRunning : Bool
  log : List SEv

/-- `StepSequencer.__init__`: `self._steps = max(1, steps)` and
`self._step_duration = 60.0 / bpm` (durations are modelled in `ℚ`; the
`ZeroDivisionError` of `bpm = 0` is outside the model). -/
def mkSequencer (lookupInstr : String → Option Nat)
    (chan : Nat → StepChannel) (steps : Int) (bpm : ℚ) : SeqState :=
  { lookupInstr := lookupInstr, chan := chan,
    steps := (max 1 steps).toNat, bpm := bpm, stepDuration := 60 / bpm,
    channels := [], active := fun _ => [], currentStep := 0,
    isRunning := false, log := [] }

/-- `StepSequencer.set_tempo`. -/
def setTempo (bpm : ℚ) (w : SeqState) : SeqState :=
  { w with bpm := bpm, stepDuration := 60 / bpm }

/-- `StepSequencer._stop_active_notes`: emit a `noteoff` for every pair in
the channel's active set and discard them all. -/
def stopActiveNotes (id : Nat) (w : SeqState) : SeqState :=
  { w with log := w.log ++ (w.active id).map (fun p => SEv.off p.1 p.2),
           active := fupdate w.active id [] }

/-- `StepSequencer.add_channel`. -/
def addChannel (id : Nat) (w : SeqState) : SeqState :=
  if id ∈ w.channels then w
  else { w with channels := w.channels ++ [id],
                active := fupdate w.active id [] }

/-- `StepSequencer.remove_channel` (the dict `pop` of the active entry is a
no-op in the model because `_stop_active_notes` just emptied it and absent
keys read as empty). -/
def removeChannel (id : Nat) (w : SeqState) : SeqState :=
  if id ∈ w.channels then
    let w1 := stopActiveNotes id w
    { w1 with channels := w1.channels.erase id }
  else w

/-- `StepSequencer._play_channel_step`. -/
def playChannelStep (id stepIndex : Nat) (w : SeqState) : SeqState :=
  let st := getSteps (w.chan id)
  if st.isEmpty then stopActiveNotes id w
  else
    let entry := st.getD (stepIndex % st.length) none
    let w1 := stopActiveNotes id w
    match entry with
    | none => w1
    | some (noteOpt, velOpt) =>
      match noteOpt with
      | none => w1
      | some note =>
        match w1.lookupInstr (getInstrumentName (w1.chan id)) with
        | none => w1
        | some midiChannel =>
          let v := velOpt.getD (getVolume (w1.chan id))
          { w1 with log := w1.log ++ [SEv.on midiChannel note v],
                    active := fupdate w1.active id
                      (addActive (w1.active id) (midiChannel, note)) }

/-- `StepSequencer.advance_one_step`: under the lock snapshot the channels,
read and wrap the step counter and read the duration; then play each
snapshotted channel; return the duration. -/
def advanceOneStep (w : SeqState) : SeqState × ℚ :=
  let snapshot := w.channels
  let stepIndex := w.currentStep
  let w1 := { w with currentStep := (w.currentStep + 1) % w.steps }
  let dur := w1.stepDuration
  (snapshot.foldl (fun acc id => playChannelStep id stepIndex acc) w1, dur)

/-- `StepSequencer.start` restricted to its state effect (the spawned
background loop shows up in traces as interleaved `advance` operations). -/
def startSeq (w : SeqState) : SeqState :=
  if w.isRunning then w else { w with isRunning := true }

/-- `StepSequencer.stop`: a no-op unless running; otherwise clear the flag,
release every channel's active notes and reset the step counter. -/
def stopSeq (w : SeqState) : SeqState :=
  if w.isRunning then
    let w1 := { w with isRunning := false }
    let w2 := w1.channels.foldl (fun acc id => stopActiveNotes id acc) w1
    { w2 with currentStep := 0 }
  else w

/-- One call in a sequencer trace. -/
inductive SOp where
  | advance
  | addCh (id : Nat)
  | removeCh (id : Nat)
  | tempo (bpm : ℚ)
  | startOp
  | stopOp

def applySOp (w : SeqState) : SOp → SeqState
  | .advance => (advanceOneStep w).1
  | .addCh id => addChannel id w
  | .removeCh id => removeChannel id w
  | .tempo bpm => setTempo bpm w
  | .startOp => startSeq w
  | .stopOp => stopSeq w

def runSOps (w : SeqState) (ops : List SOp) : SeqState :=
  ops.foldl applySOp w

/-- The bpm last set by a `set_tempo` in the trace, or the constructor's. -/
def lastBpm (b : ℚ) (ops : List SOp) : ℚ :=
  ops.foldl (fun acc op =>
    match op with
    | .tempo x => x
    | _ => acc) b

/-- The `StepChannel` of the acceptance test
`test_step_sequencer_triggers_notes`: volume 90, steps
`[(60,100), (None,None), (62,None), (64,70)]`. -/
def pianoChannel : StepChannel :=
  setStep (setStep (setStep (setStep (mkStepChannel "piano" 90)
    0 (some 60) (some 100)) 1 none none) 2 (some 62) none) 3 (some 64) (some 70)

/-- A 4-step, 120 bpm sequencer whose registry resolves "piano" to backend
channel `c` and whose only attached channel object is `pianoChannel`. -/
def c4World (c : Nat) : SeqState :=
  mkSequencer (fun n => if n = "piano" then some c else none)
    (fun _ => pianoChannel) 4 120

example : pianoChannel.steps =
    [some (some 60, some 100), some (none, none), some (some 62, none),
     some (some 64, some 70)] := by decide

example : (runSOps (c4World 0) [.addCh 0, .advance, .advance]).log
    = [SEv.on 0 60 100, SEv.off 0 60] := by decide

/-- C4: the acceptance-test scenario — a 4-step sequencer at 120 bpm with
one attached channel (volume 90, steps `[(60,100), (None,None), (62,None),
(64,70)]`) over a registry resolving "piano" to backend channel `c`,
advanced 4 times, emits exactly note-on(c,60,100), note-off(c,60),
note-on(c,62,90) (velocity defaulting to the channel volume),
note-off(c,62), note-on(c,64,70), in that order. -/
theorem claimC4_test_sequence (c : Nat) :
    (runSOps (c4World c) [.addCh 0, .advance, .advance, .advance, .advance]).log
      = [SEv.on c 60 100, SEv.off c 60, SEv.on c 62 90, SEv.off c 62,
         SEv.on c 64 70] := by
  rfl

/-- Every branch of `_play_channel_step` either just releases the held
notes, or releases them and then issues exactly one note-on, recording it
as active. -/
theorem playChannelStep_cases (id i : Nat) (w : SeqState) :
    playChannelStep id i w = stopActiveNotes id w
    ∨ ∃ mc note v,
        playChannelStep id i w =
          { stopActiveNotes id w with
              log := (stopActiveNotes id w).log ++ [SEv.on mc note v],
              active := fupdate (stopActiveNotes id w).active id
                (addActive ((stopActiveNotes id w).active id) (mc, note)) } := by
  unfold playChannelStep
  by_cases h1 : (getSteps (w.chan id)).isEmpty
  · left
    simp [h1]
  · simp only [h1, if_false, Bool.false_eq_true]
    rcases hentry : (getSteps (w.chan id)).getD
        (i % (getSteps (w.chan id)).length) none with - | ⟨noteOpt, velOpt⟩
    · left
      simp [hentry]
    · rcases noteOpt with - | note
      · left
        simp [hentry]
      · rcases hlook : w.lookupInstr (getInstrumentName (w.chan id))
            with - | mc
        · left
          simp [hentry, stopActiveNotes, hlook]
        · right
          refine ⟨mc, note, velOpt.getD (getVolume (w.chan id)), ?_⟩
          simp [hentry, stopActiveNotes, hlook]

theorem playChannelStep_frame (id i : Nat) (w : SeqState) :
    (playChannelStep id i w).lookupInstr = w.lookupInstr
    ∧ (playChannelStep id i w).chan = w.chan
    ∧ (playChannelStep id i w).steps = w.steps
    ∧ (playChannelStep id i w).bpm = w.bpm
    ∧ (playChannelStep id i w).stepDuration = w.stepDuration
    ∧ (playChannelStep id i w).channels = w.channels
    ∧ (playChannelStep id i w).currentStep = w.currentStep
    ∧ (playChannelStep id i w).isRunning = w.isRunning := by
  rcases playChannelStep_cases id i w with h | ⟨mc, note, v, h⟩ <;>
    rw [h] <;> simp [stopActiveNotes]

theorem playChannelStep_active_other (id i : Nat) (w : SeqState) (j : Nat)
    (hj : j ≠ id) : (playChannelStep id i w).active j = w.active j := by
  rcases playChannelStep_cases id i w with h | ⟨mc, note, v, h⟩ <;>
    rw [h] <;> simp [stopActiveNotes, fupdate, hj]

theorem playChannelStep_active_self (id i : Nat) (w : SeqState) :
    ((playChannelStep id i w).active id).length ≤ 1 := by
  rcases playChannelStep_cases id i w with h | ⟨mc, note, v, h⟩ <;>
    rw [h] <;> simp [stopActiveNotes, fupdate, addActive]

theorem foldl_play_frame (i : Nat) (l : List Nat) : ∀ w : SeqState,
    ((l.foldl (fun acc id => playChannelStep id i acc) w).lookupInstr
        = w.lookupInstr)
    ∧ ((l.foldl (fun acc id => playChannelStep id i acc) w).chan = w.chan)
    ∧ ((l.foldl (fun acc id => playChannelStep id i acc) w).steps = w.steps)
    ∧ ((l.foldl (fun acc id => playChannelStep id i acc) w).bpm = w.bpm)
    ∧ ((l.foldl (fun acc id => playChannelStep id i acc) w).stepDuration
        = w.stepDuration)
    ∧ ((l.foldl (fun acc id => playChannelStep id i acc) w).channels
        = w.channels)
    ∧ ((l.foldl (fun acc id => playChannelStep id i acc) w).currentStep
        = w.currentStep)
    ∧ ((l.foldl (fun acc id => playChannelStep id i acc) w).isRunning
        = w.isRunning) := by
  induction l with
  | nil => intro w; exact ⟨rfl, rfl, rfl, rfl, rfl, rfl, rfl, rfl⟩
  | cons id0 t ih =>
    intro w
    have h1 := playChannelStep_frame id0 i w
    have h2 := ih (playChannelStep id0 i w)
    simp only [List.foldl_cons]
    exact ⟨h2.1.trans h1.1, h2.2.1.trans h1.2.1, h2.2.2.1.trans h1.2.2.1,
      h2.2.2.2.1.trans h1.2.2.2.1, h2.2.2.2.2.1.trans h1.2.2.2.2.1,
      h2.2.2.2.2.2.1.trans h1.2.2.2.2.2.1,
      h2.2.2.2.2.2.2.1.trans h1.2.2.2.2.2.2.1,
      h2.2.2.2.2.2.2.2.trans h1.2.2.2.2.2.2.2⟩

theorem foldl_stop_frame (l : List Nat) : ∀ w : SeqState,
    ((l.foldl (fun acc id => stopActiveNotes id acc) w).lookupInstr
        = w.lookupInstr)
    ∧ ((l.foldl (fun acc id => stopActiveNotes id acc) w).chan = w.chan)
    ∧ ((l.foldl (fun acc id => stopActiveNotes id acc) w).steps = w.steps)
    ∧ ((l.foldl (fun acc id => stopActiveNotes id acc) w).bpm = w.bpm)
    ∧ ((l.foldl (fun acc id => stopActiveNotes id acc) w).stepDuration
        = w.stepDuration)
    ∧ ((l.foldl (fun acc id => stopActiveNotes id acc) w).channels
        = w.channels)
    ∧ ((l.foldl (fun acc id => stopActiveNotes id acc) w).currentStep
        = w.currentStep)
    ∧ ((l.foldl (fun acc id => stopActiveNotes id acc) w).isRunning
        = w.isRunning) := by
  induction l with
  | nil => intro w; exact ⟨rfl, rfl, rfl, rfl, rfl, rfl, rfl, rfl⟩
  | cons id0 t ih =>
    intro w
    have h2 := ih (stopActiveNotes id0 w)
    simp only [List.foldl_cons]
    exact ⟨h2.1, h2.2.1, h2.2.2.1, h2.2.2.2.1, h2.2.2.2.2.1, h2.2.2.2.2.2.1,
      h2.2.2.2.2.2.2.1, h2.2.2.2.2.2.2.2⟩

theorem applySOp_sd (w : SeqState) (op : SOp) :
    (applySOp w op).stepDuration =
      match op with
      | .tempo x => 60 / x
      | _ => w.stepDuration := by
  cases op with
  | advance =>
    exact (foldl_play_frame w.currentStep w.channels
      { w with currentStep := (w.currentStep + 1) % w.steps }).2.2.2.2.1
  | addCh id =>
    simp only [applySOp]
    unfold addChannel
    split <;> rfl
  | removeCh id =>
    simp only [applySOp]
    unfold removeChannel
    split <;> rfl
  | tempo x => rfl
  | startOp =>
    simp only [applySOp]
    unfold startSeq
    split <;> rfl
  | stopOp =>
    simp only [applySOp]
    unfold stopSeq
    split
    · exact (foldl_stop_frame w.channels
        { w with isRunning := false }).2.2.2.2.1
    · rfl

theorem runSOps_sd (ops : List SOp) : ∀ w : SeqState,
    (runSOps w ops).stepDuration
      = ops.foldl (fun d op =>
          match op with
          | SOp.tempo x => 60 / x
          | _ => d) w.stepDuration := by
  induction ops with
  | nil => intro w; rfl
  | cons op t ih =>
    intro w
    have hstep : runSOps w (op :: t) = runSOps (applySOp w op) t := rfl
    rw [hstep, ih, applySOp_sd]
    cases op <;> rfl

theorem foldl_sd_eq (ops : List SOp) : ∀ b : ℚ,
    ops.foldl (fun d op =>
        match op with
        | SOp.tempo x => 60 / x
        | _ => d) (60 / b)
      = 60 / lastBpm b ops := by
  induction ops with
  | nil => intro b; rfl
  | cons op t ih =>
    intro b
    cases op with
    | tempo x => exact ih x
    | advance => exact ih b
    | addCh id => exact ih b
    | removeCh id => exact ih b
    | startOp => exact ih b
    | stopOp => exact ih b

/-- C8: the value returned by `advance_one_step` is the stored step
duration, the stored step duration after any trace equals `60 / bpm` for
the bpm of the most recent completed `set_tempo` (or the constructor's),
independently of steps, channels, patterns and prior advances, and
`advance_one_step` itself never changes the stored duration.  (`bpm = 0`
would raise `ZeroDivisionError` in the source before updating the duration,
so the trace is restricted to nonzero tempos.) -/
theorem claimC8_duration (lookupInstr : String → Option Nat)
    (chan : Nat → StepChannel) (steps : Int) (b : ℚ) (ops : List SOp)
    (hb : b ≠ 0) (hops : ∀ x : ℚ, SOp.tempo x ∈ ops → x ≠ 0) :
    ((advanceOneStep (runSOps (mkSequencer lookupInstr chan steps b) ops)).2
        = (runSOps (mkSequencer lookupInstr chan steps b) ops).stepDuration)
    ∧ (runSOps (mkSequencer lookupInstr chan steps b) ops).stepDuration
        = 60 / lastBpm b ops
    ∧ ((advanceOneStep
          (runSOps (mkSequencer lookupInstr chan steps b) ops)).1.stepDuration
        = (runSOps (mkSequencer lookupInstr chan steps b) ops).stepDuration) := by
  refine ⟨rfl, ?_, ?_⟩
  · rw [runSOps_sd]
    exact foldl_sd_eq ops b
  · exact (foldl_play_frame
      (runSOps (mkSequencer lookupInstr chan steps b) ops).currentStep
      (runSOps (mkSequencer lookupInstr chan steps b) ops).channels
      _).2.2.2.2.1

/-- Witness for C8 on a concrete trace containing a `set_tempo`. -/
theorem claimC8_witness :
    ((120 : ℚ) ≠ 0)
    ∧ (runSOps (mkSequencer (fun _ => none) (fun _ => mkStepChannel "x" 80)
          2 120) [.tempo 60, .advance]).stepDuration
        = 60 / lastBpm 120 [.tempo 60, .advance] := by
  refine ⟨by norm_num, (claimC8_duration _ _ 2 120 _ (by norm_num) ?_).2.1⟩
  intro x hx
  simp only [List.mem_cons, List.not_mem_nil, or_false] at hx
  rcases hx with h | h
  · cases h
    norm_num
  · exact SOp.noConfusion h

theorem foldl_play_atMostOne (i : Nat) (l : List Nat) : ∀ w : SeqState,
    (∀ id, (w.active id).length ≤ 1) →
    ∀ id, ((l.foldl (fun acc id2 => playChannelStep id2 i acc) w).active
      id).length ≤ 1 := by
  induction l with
  | nil => intro w h id; exact h id
  | cons id0 t ih =>
    intro w h id
    simp only [List.foldl_cons]
    refine ih (playChannelStep id0 i w) ?_ id
    intro id2
    by_cases h2 : id2 = id0
    · subst h2
      exact playChannelStep_active_self id2 i w
    · rw [playChannelStep_active_other id0 i w id2 h2]
      exact h id2

theorem foldl_stop_active (l : List Nat) : ∀ (w : SeqState) (j : Nat),
    (l.foldl (fun acc id => stopActiveNotes id acc) w).active j
      = if j ∈ l then [] else w.active j := by
  induction l with
  | nil => intro w j; simp
  | cons id0 t ih =>
    intro w j
    simp only [List.foldl_cons, ih]
    by_cases h1 : j ∈ t
    · simp [h1]
    · by_cases h2 : j = id0
      · simp [h1, h2, stopActiveNotes, fupdate]
      · simp [h1, h2, stopActiveNotes, fupdate, List.mem_cons]

theorem applySOp_atMostOne (w : SeqState) (op : SOp)
    (h : ∀ id, (w.active id).length ≤ 1) :
    ∀ id, ((applySOp w op).active id).length ≤ 1 := by
  cases op with
  | advance =>
    exact foldl_play_atMostOne w.currentStep w.channels
      { w with currentStep := (w.currentStep + 1) % w.steps } h
  | addCh id0 =>
    intro id
    simp only [applySOp]
    unfold addChannel
    split
    · exact h id
    · by_cases h2 : id = id0
      · simp [fupdate, h2]
      · simpa [fupdate, h2] using h id
  | removeCh id0 =>
    intro id
    simp only [applySOp]
    unfold removeChannel
    split
    · by_cases h2 : id = id0
      · simp [stopActiveNotes, fupdate, h2]
      · simpa [stopActiveNotes, fupdate, h2] using h id
    · exact h id
  | tempo x => exact h
  | startOp =>
    intro id
    simp only [applySOp]
    unfold startSeq
    split <;> exact h id
  | stopOp =>
    intro id
    simp only [applySOp]
    unfold stopSeq
    split
    · dsimp only
      simp only [foldl_stop_active]
      split
      · simp
      · exact h id
    · exact h id

theorem runSOps_atMostOne (ops : List SOp) : ∀ w : SeqState,
    (∀ id, (w.active id).length ≤ 1) →
    ∀ id, ((runSOps w ops).active id).length ≤ 1 := by
  induction ops with
  | nil => intro w h; exact h
  | cons op t ih =>
    intro w h
    exact ih (applySOp w op) (applySOp_atMostOne w op h)

/-- C6: after every trace of `advance_one_step`, `add_channel`,
`remove_channel`, `set_tempo`, `start` and `stop` calls, every channel's
active-notes set holds at most one `(midi_channel, note)` pair; and every
`_play_channel_step` first emits note-offs for exactly the pairs previously
in that channel's active set, followed by at most one note-on. -/
theorem claimC6_monophonic (lookupInstr : String → Option Nat)
    (chan : Nat → StepChannel) (steps : Int) (b : ℚ) (ops : List SOp) :
    (∀ id, ((runSOps (mkSequencer lookupInstr chan steps b) ops).active
        id).length ≤ 1)
    ∧ (∀ (w : SeqState) (id i : Nat), ∃ t,
        (playChannelStep id i w).log
          = w.log ++ (w.active id).map (fun p => SEv.off p.1 p.2) ++ t
        ∧ (t = [] ∨ ∃ mc n v, t = [SEv.on mc n v])) := by
  constructor
  · exact runSOps_atMostOne ops (mkSequencer lookupInstr chan steps b)
      (fun id => by simp [mkSequencer])
  · intro w id i
    rcases playChannelStep_cases id i w with h | ⟨mc, note, v, h⟩
    · exact ⟨[], by simp [h, stopActiveNotes], Or.inl rfl⟩
    · exact ⟨[SEv.on mc note v], by simp [h, stopActiveNotes],
        Or.inr ⟨mc, note, v, rfl⟩⟩

theorem applySOp_steps (w : SeqState) (op : SOp) :
    (applySOp w op).steps = w.steps := by
  cases op with
  | advance =>
    exact (foldl_play_frame w.currentStep w.channels
      { w with currentStep := (w.currentStep + 1) % w.steps }).2.2.1
  | addCh id =>
    simp only [applySOp]
    unfold addChannel
    split <;> rfl
  | removeCh id =>
    simp only [applySOp]
    unfold removeChannel
    split <;> rfl
  | tempo x => rfl
  | startOp =>
    simp only [applySOp]
    unfold startSeq
    split <;> rfl
  | stopOp =>
    simp only [applySOp]
    unfold stopSeq
    split
    · exact (foldl_stop_frame w.channels { w with isRunning := false }).2.2.1
    · rfl

theorem applySOp_cs0 (w : SeqState) (op : SOp) (h1 : w.steps = 1)
    (h2 : w.currentStep = 0) : (applySOp w op).currentStep = 0 := by
  cases op with
  | advance =>
    have h3 := (foldl_play_frame w.currentStep w.channels
      { w with currentStep := (w.currentStep + 1) % w.steps }).2.2.2.2.2.2.1
    have h4 : (applySOp w SOp.advance).currentStep
        = (w.currentStep + 1) % w.steps := h3
    rw [h4, h1, h2]
  | addCh id =>
    simp only [applySOp]
    unfold addChannel
    split <;> exact h2
  | removeCh id =>
    simp only [applySOp]
    unfold removeChannel
    split <;> exact h2
  | tempo x => exact h2
  | startOp =>
    simp only [applySOp]
    unfold startSeq
    split <;> exact h2
  | stopOp =>
    simp only [applySOp]
    unfold stopSeq
    split
    · rfl
    · exact h2

theorem runSOps_steps_cs (ops : List SOp) : ∀ w : SeqState, w.steps = 1 →
    w.currentStep = 0 →
    (runSOps w ops).steps = 1 ∧ (runSOps w ops).currentStep = 0 := by
  induction ops with
  | nil => intro w h1 h2; exact ⟨h1, h2⟩
  | cons op t ih =>
    intro w h1 h2
    exact ih (applySOp w op) ((applySOp_steps w op).trans h1)
      (applySOp_cs0 w op h1 h2)

/-- C10: `_play_channel_step` on a channel with a non-empty pattern of
length `L` plays the entry at index `i mod L` (a short pattern repeats with
period `L`); on a channel with an empty pattern it only releases the held
notes; and a sequencer constructed with `steps ≤ 0` clamps to one step and
its step counter stays at 0 across every trace. -/
theorem claimC10_wrap_and_clamp :
    (∀ (w : SeqState) (id i : Nat), 0 < (getSteps (w.chan id)).length →
        playChannelStep id i w
          = playChannelStep id (i % (getSteps (w.chan id)).length) w)
    ∧ (∀ (w : SeqState) (id i : Nat), getSteps (w.chan id) = [] →
        playChannelStep id i w = stopActiveNotes id w)
    ∧ (∀ (lookupInstr : String → Option Nat) (chan : Nat → StepChannel)
        (steps : Int) (b : ℚ), steps ≤ 0 →
        (mkSequencer lookupInstr chan steps b).steps = 1
        ∧ ∀ ops, (runSOps (mkSequencer lookupInstr chan steps b)
            ops).currentStep = 0) := by
  refine ⟨?_, ?_, ?_⟩
  · intro w id i hL
    have hmod : i % (getSteps (w.chan id)).length % (getSteps (w.chan id)).length
        = i % (getSteps (w.chan id)).length := Nat.mod_mod_of_dvd i (dvd_refl _)
    simp only [playChannelStep, hmod]
  · intro w id i h
    simp [playChannelStep, h]
  · intro lookupInstr chan steps b hs
    have h1 : (mkSequencer lookupInstr chan steps b).steps = 1 := by
      simp only [mkSequencer]
      rw [max_eq_left (by omega : steps ≤ 1)]
      rfl
    exact ⟨h1, fun ops => (runSOps_steps_cs ops _ h1 rfl).2⟩

/-- Witness for C10: wraparound at a concrete over-length index and the
clamping constructor at a negative step count. -/
theorem claimC10_witness :
    (0 < (getSteps ((c4World 0).chan 0)).length)
    ∧ playChannelStep 0 5 (c4World 0)
        = playChannelStep 0 (5 % (getSteps ((c4World 0).chan 0)).length)
            (c4World 0)
    ∧ ((-3 : Int) ≤ 0)
    ∧ (mkSequencer (fun _ => none) (fun _ => mkStepChannel "x" 80)
        (-3) 120).steps = 1 :=
  ⟨by decide, claimC10_wrap_and_clamp.1 (c4World 0) 0 5 (by decide),
   by decide,
   (claimC10_wrap_and_clamp.2.2 (fun _ => none) (fun _ => mkStepChannel "x" 80)
     (-3) 120 (by decide)).1⟩

/-- Reachability invariant of the sequencer: a channel id not currently
attached has an empty active set. -/
def InactiveOutside (w : SeqState) : Prop :=
  ∀ id, id ∉ w.channels → w.active id = []

theorem foldl_play_inactive (i : Nat) (l : List Nat) : ∀ w : SeqState,
    InactiveOutside w → (∀ id ∈ l, id ∈ w.channels) →
    InactiveOutside (l.foldl (fun acc id2 => playChannelStep id2 i acc) w) := by
  induction l with
  | nil => intro w h _; exact h
  | cons id0 t ih =>
    intro w h hsub
    simp only [List.foldl_cons]
    have hch : (playChannelStep id0 i w).channels = w.channels :=
      (playChannelStep_frame id0 i w).2.2.2.2.2.1
    refine ih (playChannelStep id0 i w) ?_ ?_
    · intro j hj
      rw [hch] at hj
      have hj0 : j ≠ id0 :=
        fun he => hj (he ▸ hsub id0 (List.mem_cons_self id0 t))
      rw [playChannelStep_active_other id0 i w j hj0]
      exact h j hj
    · intro id hid
      rw [hch]
      exact hsub id (List.mem_cons_of_mem _ hid)

theorem applySOp_inactive (w : SeqState) (op : SOp) (h : InactiveOutside w) :
    InactiveOutside (applySOp w op) := by
  cases op with
  | advance =>
    exact foldl_play_inactive w.currentStep w.channels
      { w with currentStep := (w.currentStep + 1) % w.steps } h
      (fun id hid => hid)
  | addCh id0 =>
    simp only [applySOp]
    unfold addChannel
    split
    · exact h
    · intro j hj
      have hj1 : j ∉ w.channels ∧ j ≠ id0 := by
        simpa [List.mem_append, not_or] using hj
      simp only [fupdate]
      rw [if_neg hj1.2]
      exact h j hj1.1
  | removeCh id0 =>
    simp only [applySOp]
    unfold removeChannel
    split
    · intro j hj
      by_cases hj0 : j = id0
      · subst hj0
        simp [stopActiveNotes, fupdate]
      · have hjc : j ∉ w.channels := by
          intro hc
          exact hj (by simpa [List.mem_erase_of_ne hj0] using hc)
        simp only [stopActiveNotes, fupdate]
        rw [if_neg hj0]
        exact h j hjc
    · exact h
  | tempo x => exact h
  | startOp =>
    simp only [applySOp]
    unfold startSeq
    split
    · exact h
    · exact h
  | stopOp =>
    simp only [applySOp]
    unfold stopSeq
    split
    · intro j hj
      dsimp only
      have hch := (foldl_stop_frame w.channels
        ({ w with isRunning := false } : SeqState)).2.2.2.2.2.1
      have hj2 : j ∉ w.channels := by
        simpa [hch] using hj
      simp only [foldl_stop_active]
      rw [if_neg hj2]
      exact h j hj2
    · exact h

theorem runSOps_inactive (ops : List SOp) : ∀ w : SeqState,
    InactiveOutside w → InactiveOutside (runSOps w ops) := by
  induction ops with
  | nil => intro w h; exact h
  | cons op t ih =>
    intro w h
    exact ih (applySOp w op) (applySOp_inactive w op h)

theorem foldl_stop_log_mono (l : List Nat) : ∀ (w : SeqState) (e : SEv),
    e ∈ w.log → e ∈ (l.foldl (fun acc id => stopActiveNotes id acc) w).log := by
  induction l with
  | nil => intro w e he; exact he
  | cons id0 t ih =>
    intro w e he
    simp only [List.foldl_cons]
    exact ih _ e (List.mem_append_left _ he)

theorem foldl_stop_offs (l : List Nat) : ∀ (w : SeqState) (id : Nat), id ∈ l →
    ∀ p ∈ w.active id, SEv.off p.1 p.2
      ∈ (l.foldl (fun acc id2 => stopActiveNotes id2 acc) w).log := by
  induction l with
  | nil =>
    intro w id hid
    exact absurd hid (List.not_mem_nil id)
  | cons id0 t ih =>
    intro w id hid p hp
    simp only [List.foldl_cons]
    by_cases h0 : id = id0
    · subst h0
      refine foldl_stop_log_mono t (stopActiveNotes id w) _ ?_
      exact List.mem_append_right _ (List.mem_map_of_mem _ hp)
    · have hid2 : id ∈ t := by
        rcases List.mem_cons.mp hid with he | ht
        · exact absurd he h0
        · exact ht
      refine ih (stopActiveNotes id0 w) id hid2 p ?_
      simpa [stopActiveNotes, fupdate, h0] using hp

theorem stopSeq_spec (w : SeqState) (hr : w.isRunning = true)
    (hin : InactiveOutside w) :
    (∀ id, (stopSeq w).active id = [])
    ∧ (stopSeq w).currentStep = 0
    ∧ (∀ id, ∀ p ∈ w.active id, SEv.off p.1 p.2 ∈ (stopSeq w).log) := by
  refine ⟨?_, ?_, ?_⟩
  · intro id
    simp only [stopSeq, hr, if_true]
    simp only [foldl_stop_active]
    by_cases hmem : id ∈ w.channels
    · rw [if_pos hmem]
    · rw [if_neg hmem]
      exact hin id hmem
  · simp [stopSeq, hr]
  · intro id p hp
    simp only [stopSeq, hr, if_true]
    by_cases hmem : id ∈ w.channels
    · exact foldl_stop_offs w.channels { w with isRunning := false } id hmem p hp
    · rw [hin id hmem] at hp
      exact absurd hp (List.not_mem_nil p)

/-- C7, counterexample: `stop()` returns early when the sequencer is not
running (`if not self._is_running: return`), so after driving a never-started
sequencer with `advance_one_step` (as the test suite does), `stop()` leaves
the active note `(0, 60)` sounding, the step counter at 1, and the log with
a note-on that has no matching note-off. -/
theorem claimC7_counterexample :
    (runSOps (c4World 0) [.addCh 0, .advance]).isRunning = false
    ∧ (stopSeq (runSOps (c4World 0) [.addCh 0, .advance])).active 0 = [(0, 60)]
    ∧ (stopSeq (runSOps (c4World 0) [.addCh 0, .advance])).currentStep = 1
    ∧ (stopSeq (runSOps (c4World 0) [.addCh 0, .advance])).log
        = [SEv.on 0 60 100] := by
  decide

/-- C7 (amended): on a sequencer that is running, `stop()` empties every
channel's active-notes set, resets `current_step` to 0, and issues a
note-off for every `(midi_channel, note)` pair that was in any channel's
active set — for every reachable sequencer state. -/
theorem claimC7_stop_releases (lookupInstr : String → Option Nat)
    (chan : Nat → StepChannel) (steps : Int) (b : ℚ) (ops : List SOp)
    (h : (runSOps (mkSequencer lookupInstr chan steps b) ops).isRunning
      = true) :
    (∀ id, (stopSeq (runSOps (mkSequencer lookupInstr chan steps b)
        ops)).active id = [])
    ∧ (stopSeq (runSOps (mkSequencer lookupInstr chan steps b)
        ops)).currentStep = 0
    ∧ (∀ id, ∀ p ∈ (runSOps (mkSequencer lookupInstr chan steps b)
          ops).active id,
        SEv.off p.1 p.2
          ∈ (stopSeq (runSOps (mkSequencer lookupInstr chan steps b)
              ops)).log) :=
  stopSeq_spec _ h (runSOps_inactive ops _ (fun _ _ => rfl))

/-- Witness for the amended C7 on a concrete running sequencer. -/
theorem claimC7_witness :
    (runSOps (c4World 0) [.startOp, .addCh 0, .advance]).isRunning = true
    ∧ (stopSeq (runSOps (c4World 0)
        [.startOp, .addCh 0, .advance])).currentStep = 0 :=
  ⟨by decide,
   (claimC7_stop_releases (fun n => if n = "piano" then some 0 else none)
     (fun _ => pianoChannel) 4 120 [.startOp, .addCh 0, .advance]
     (by decide)).2.1⟩
